import Mathlib

/-!
# Verification of the `host_did_web` batched publication engine

Shallow embedding of the Go service in `host_did_web` (the DID-document
hosting service): identifier parsing (`parseDID`), target-file derivation
(`determineTargetFile`), document saving (`saveDIDDocument`), the admission
step (`batchGitOperation`), the accumulation loop (`gitBatchProcessor`),
and the publisher (`performBatchedGitOperations`,
`executeBatchedGitCommands`).

Strings are embedded as `List Char` (`Str`) so that the splitting and
joining done by the Go code (`strings.Split`, `strings.Join`,
`strings.HasPrefix`, ...) can be reasoned about by structural induction.
File-system paths are embedded as lists of components (`filepath.Base` is
the last component, `filepath.Dir` drops it, `filepath.Join` appends).
External effects (HTTP fetch, file writes, git commands) are driven by
explicit oracle structures recording what each external call would return,
and the effects a run performs are returned as explicit traces.
-/

namespace HostDidWeb

/-- Strings as character lists, for inductive reasoning. -/
abbrev Str := List Char

variable {α ρ : Type}

/-- `strings.Split(s, ":")` specialised to one-character separators. -/
def splitOnChar (sep : Char) : Str → List Str
  | [] => [[]]
  | c :: rest =>
    if c = sep then
      [] :: splitOnChar sep rest
    else
      match splitOnChar sep rest with
      | s :: ss => (c :: s) :: ss
      | [] => [[c]]

/-- `strings.Join(parts, sep)` specialised to one-character separators. -/
def joinWithChar (sep : Char) : List Str → Str
  | [] => []
  | [s] => s
  | s :: ss => s ++ sep :: joinWithChar sep ss

/-- `strings.ToLower` (ASCII case folding suffices for the hosts involved). -/
def toLowerStr (s : Str) : Str := s.map Char.toLower

/-- `strings.TrimSuffix(s, suffix)`. -/
def trimSuffix (suffix s : Str) : Str :=
  if suffix.isSuffixOf s then s.take (s.length - suffix.length) else s

/-- `strings.EqualFold` (ASCII case folding suffices here). -/
def equalFold (a b : Str) : Bool :=
  toLowerStr a == toLowerStr b

/-- The public-hosting suffix required of every DID host. -/
def githubSuffix : Str := ".github.io".toList

/-- `strings.HasSuffix(strings.ToLower(host), ".github.io")`. -/
def hostHasGithubSuffix (host : Str) : Bool :=
  githubSuffix.isSuffixOf (toLowerStr host)

/-- The `ParsedDID` struct of the Go source. -/
structure ParsedDID where
  Original : Str
  Host : Str
  Project : Str
  PathSegs : List Str
  HostLower : Str
  deriving Repr, DecidableEq

/-- `parseDID`: requires the `did:web:` prefix and at least four `:`-separated
parts; parts 2 and 3 become `Host` and `Project`, the rest `PathSegs`. -/
def parseDID (did : Str) : Option ParsedDID :=
  if "did:web:".toList.isPrefixOf did then
    match splitOnChar ':' did with
    | _p0 :: _p1 :: host :: project :: rest =>
      some { Original := did, Host := host, Project := project,
             PathSegs := rest, HostLower := toLowerStr host }
    | _ => none
  else none

/-- The `expectedID` computed inside `validateDIDDocumentID`:
`"did:web:" + Host + ":" + Project`, then `":" + strings.Join(PathSegs, ":")`
when path segments are present. -/
def expectedDIDDocumentID (parsed : ParsedDID) : Str :=
  let base := "did:web:".toList ++ parsed.Host ++ ':' :: parsed.Project
  if parsed.PathSegs.length > 0 then
    base ++ ':' :: joinWithChar ':' parsed.PathSegs
  else base

/-! ## Split/join round-trip facts -/

theorem splitOnChar_ne_nil (sep : Char) (s : Str) : splitOnChar sep s ≠ [] := by
  cases s with
  | nil => simp [splitOnChar]
  | cons c rest =>
    simp only [splitOnChar]
    split
    · simp
    · split <;> simp

theorem joinWithChar_splitOnChar (sep : Char) (s : Str) :
    joinWithChar sep (splitOnChar sep s) = s := by
  induction s with
  | nil => rfl
  | cons c rest ih =>
    simp only [splitOnChar]
    by_cases hc : c = sep
    · subst hc
      simp only [if_pos rfl]
      cases h : splitOnChar c rest with
      | nil => exact absurd h (splitOnChar_ne_nil c rest)
      | cons s ss =>
        rw [h] at ih
        simp [joinWithChar, ih]
    · simp only [if_neg hc]
      cases h : splitOnChar sep rest with
      | nil => exact absurd h (splitOnChar_ne_nil sep rest)
      | cons s ss =>
        rw [h] at ih
        cases ss with
        | nil => simpa [joinWithChar] using ih
        | cons t ts => simpa [joinWithChar] using ih

theorem splitOnChar_append_cons (sep : Char) (a b : Str) (h : sep ∉ a) :
    splitOnChar sep (a ++ sep :: b) = a :: splitOnChar sep b := by
  induction a with
  | nil => simp [splitOnChar]
  | cons c cs ih =>
    have hc : c ≠ sep := fun hcs => h (hcs ▸ List.mem_cons_self c cs)
    have hcs : sep ∉ cs := fun hm => h (List.mem_cons_of_mem c hm)
    simp only [List.cons_append, splitOnChar, if_neg hc]
    rw [show cs.append (sep :: b) = cs ++ sep :: b from rfl, ih hcs]

theorem splitOnChar_did_web_start (t : Str) :
    splitOnChar ':' ("did:web:".toList ++ t) =
      "did".toList :: "web".toList :: splitOnChar ':' t := by
  have h1 : "did:web:".toList ++ t =
      "did".toList ++ ':' :: ("web".toList ++ ':' :: t) := rfl
  rw [h1, splitOnChar_append_cons ':' _ _ (by decide),
      splitOnChar_append_cons ':' _ _ (by decide)]

/-- **C10.** `parseDID` followed by the canonical reconstruction performed in
`validateDIDDocumentID` (`"did:web:" + Host + ":" + Project`, then the
`":"`-joined `PathSegs`) is a round-trip: it returns exactly the identifier
string that was parsed. -/
theorem parseDID_roundtrip (did : Str) (parsed : ParsedDID)
    (hp : parseDID did = some parsed) :
    expectedDIDDocumentID parsed = did := by
  unfold parseDID at hp
  split at hp
  case isFalse => exact absurd hp (by simp)
  case isTrue hpre =>
    obtain ⟨t, ht⟩ := List.isPrefixOf_iff_prefix.mp hpre
    subst ht
    rw [splitOnChar_did_web_start t] at hp
    split at hp
    case h_2 heq => exact absurd hp (by simp)
    case h_1 p0 p1 host project rest heq =>
      have hsplit : splitOnChar ':' t = host :: project :: rest := by
        have h0 := heq
        simp only [List.cons.injEq] at h0
        exact h0.2.2
      have hparsed : parsed =
          { Original := "did:web:".toList ++ t, Host := host,
            Project := project, PathSegs := rest,
            HostLower := toLowerStr host } := by
        cases hp
        rfl
      subst hparsed
      have hjoin : joinWithChar ':' (host :: project :: rest) = t := by
        rw [← hsplit, joinWithChar_splitOnChar]
      cases rest with
      | nil =>
        simp only [expectedDIDDocumentID, List.length_nil, gt_iff_lt,
          Nat.lt_irrefl, if_false]
        rw [← hjoin]
        simp [joinWithChar, List.append_assoc]
      | cons r rs =>
        simp only [expectedDIDDocumentID, List.length_cons, if_pos (Nat.succ_pos _)]
        rw [← hjoin]
        simp [joinWithChar, List.append_assoc]

/-- Witness for C10 at a concrete identifier with two path segments. -/
theorem parseDID_roundtrip_witness :
    expectedDIDDocumentID
      { Original := "did:web:alice.github.io:proj:a:b".toList,
        Host := "alice.github.io".toList, Project := "proj".toList,
        PathSegs := ["a".toList, "b".toList],
        HostLower := "alice.github.io".toList } =
      "did:web:alice.github.io:proj:a:b".toList :=
  parseDID_roundtrip _ _ (by decide)

/-! ## Target-file derivation (`determineTargetFile`)

Working directories and target paths are lists of path components
(innermost component last): `filepath.Base` is the last component,
`filepath.Dir` drops it, and `filepath.Join` appends components. -/

/-- The stripping loop of `determineTargetFile`: while the first remaining
path segment equals `filepath.Base(cwd)`, drop that segment and move `cwd`
up one directory (`filepath.Dir`); stop at the first mismatch. -/
def stripLeadingSegs : List Str → List Str → List Str
  | [], _ => []
  | s :: rest, cwd =>
    match cwd.getLast? with
    | some d => if d = s then stripLeadingSegs rest cwd.dropLast else s :: rest
    | none => s :: rest

/-- The file name written by the service. The spec calls this file
`document.json`; the source names it `did.json`. -/
def didJsonFile : Str := "did.json".toList

/-- `determineTargetFile`: strip the leading path segments against the
working directory, join the remainder, and append `did.json`. The Go code
joins `targetDir = "."` with `did.json` when nothing remains, which yields
the bare file name, i.e. the empty component list here. -/
def determineTargetFile (pathSegs cwd : List Str) : List Str :=
  stripLeadingSegs pathSegs cwd ++ [didJsonFile]

/-- The target path as the spec words it (§4.1): `Namespace` first, then the
stripped `PathSegments`, then the document file. Kept separate from
`determineTargetFile` so the two can be compared. -/
def specTargetFile (namespaceSeg : Str) (pathSegs cwd : List Str) : List Str :=
  namespaceSeg :: (stripLeadingSegs pathSegs cwd ++ [didJsonFile])

/-- Length of the longest common prefix of two lists of components. -/
def commonPrefixLen : List Str → List Str → Nat
  | s :: ss, d :: ds => if s = d then commonPrefixLen ss ds + 1 else 0
  | _, _ => 0

theorem reverse_eq_getLast_cons {cwd : List Str} {d : Str}
    (h : cwd.getLast? = some d) :
    cwd.reverse = d :: cwd.dropLast.reverse := by
  induction cwd using List.reverseRecOn with
  | nil => simp at h
  | append_singleton ys y _ih =>
    rw [List.getLast?_concat] at h
    obtain rfl : y = d := by simpa using h
    simp

theorem stripLeadingSegs_eq_drop (pathSegs cwd : List Str) :
    stripLeadingSegs pathSegs cwd =
      pathSegs.drop (commonPrefixLen pathSegs cwd.reverse) := by
  induction pathSegs generalizing cwd with
  | nil => simp [stripLeadingSegs]
  | cons s rest ih =>
    cases hlast : cwd.getLast? with
    | none =>
      have hnil : cwd = [] := by simpa using hlast
      subst hnil
      simp [stripLeadingSegs, commonPrefixLen]
    | some d =>
      rw [reverse_eq_getLast_cons hlast]
      simp only [stripLeadingSegs, hlast, commonPrefixLen]
      by_cases hds : s = d
      · subst hds
        simp [ih]
      · simp [if_neg hds, if_neg (Ne.symm hds)]

/-- **C5 (amended).** `determineTargetFile` drops the longest leading run of
path segments matching the trailing components of the working directory
(innermost component first) and returns the remaining segments followed by
`did.json`; the `Namespace` is not prefixed to the result. -/
theorem determineTargetFile_amended (pathSegs cwd : List Str) :
    determineTargetFile pathSegs cwd =
      pathSegs.drop (commonPrefixLen pathSegs cwd.reverse) ++ [didJsonFile] := by
  rw [determineTargetFile, stripLeadingSegs_eq_drop]

/-- **C5 (counterexample).** At `PathSegments = [sub]`,
`cwd = /home/user`, and `Namespace = proj`, the code returns `sub/did.json`
while the claim prescribes `proj/sub/did.json`: the claimed `Namespace`
prefix is absent. -/
theorem determineTargetFile_counterexample :
    determineTargetFile ["sub".toList] ["home".toList, "user".toList] ≠
      specTargetFile "proj".toList ["sub".toList]
        ["home".toList, "user".toList] := by
  decide

/-! ## Admission (`batchGitOperation`)

The Go `select` races the channel send `p.batchCh <- batchItem` against
`time.After(30 * time.Second)`. If the send wins, execution continues with
`return <-responseCh`, a receive with no deadline; if the timer wins, the
send is abandoned (the item is never placed in the queue) and the timeout
error is returned. The timing of the two external events is an oracle. -/

/-- Oracle for one `batchGitOperation` call. `ρ` is the type of whole-batch
outcomes delivered on the completion handle. -/
structure SubmitEnv (ρ : Type) where
  /-- Time at which the send into the admission channel would complete
  (`none`: the channel never accepts the item). -/
  enqueueAt : Option Nat
  /-- Time at which the flush outcome is signaled on the item's completion
  handle, were the item enqueued (`none`: never signaled). -/
  signalAt : Option Nat
  /-- The whole-batch outcome the flush would deliver. -/
  outcome : ρ

/-- What the caller of `batchGitOperation` experiences. -/
inductive SubmitResult (ρ : Type) where
  /-- The completion handle fired at `time` with the batch outcome. -/
  | completed (outcome : ρ) (time : Nat)
  /-- The 30-unit timer fired first and the timeout error was returned. -/
  | timeout
  /-- The item was enqueued but the handle never fires: the caller stays
  blocked on `<-responseCh` forever. -/
  | blocked
  deriving Repr, DecidableEq

/-- The fixed admission ceiling (30 time-units / `30 * time.Second`). -/
def submitDeadline : Nat := 30

/-- Whether the channel send wins the `select`, i.e. the item enters the
admission queue strictly before the 30-unit timer fires. -/
def enqueuedWithinDeadline (env : SubmitEnv ρ) : Bool :=
  match env.enqueueAt with
  | some t => decide (t < submitDeadline)
  | none => false

/-- `batchGitOperation`: the select; then, on a successful send, an
undeadlined wait on the completion handle. -/
def batchGitOperation (env : SubmitEnv ρ) : SubmitResult ρ :=
  if enqueuedWithinDeadline env then
    match env.signalAt with
    | some s => .completed env.outcome s
    | none => .blocked
  else .timeout

/-- The property claim C1 asserts of a submission: the caller's wait is
bounded by the ceiling — either the outcome arrives within 30 time-units,
or the caller receives the timeout error; it is never blocked past the
ceiling without one of the two. -/
def submitWaitBounded (env : SubmitEnv ρ) : Prop :=
  match batchGitOperation env with
  | .completed _ t => t ≤ submitDeadline
  | .timeout => True
  | .blocked => False

/-- **C1.** The code diverges from its own documentation ("each request
waits for its batch to complete (30s timeout)"): an item enqueued at time 0
whose batch outcome is signaled at time 31 completes at 31 — after the
30-unit ceiling — and the caller never receives the timeout error. The
`select` races the timer against the channel send only; the subsequent
wait on the completion handle has no deadline, so the wait is not bounded
by the ceiling. -/
theorem batchGitOperation_unbounded_wait :
    batchGitOperation (⟨some 0, some 31, ()⟩ : SubmitEnv Unit) =
      .completed () 31 ∧
    ¬ submitWaitBounded (⟨some 0, some 31, ()⟩ : SubmitEnv Unit) :=
  ⟨rfl, fun h => (by decide : ¬ (31 : Nat) ≤ 30) h⟩

/-- Implemented admission semantics: the 30-unit ceiling bounds only entry
into the queue — once the send completes within the ceiling, the caller
waits with no deadline and receives the batch outcome whenever the handle
is signaled, possibly well after the ceiling, and never as a timeout. -/
theorem batchGitOperation_enqueued_no_deadline (env : SubmitEnv ρ) (t s : Nat)
    (he : env.enqueueAt = some t) (ht : t < submitDeadline)
    (hs : env.signalAt = some s) :
    batchGitOperation env = .completed env.outcome s := by
  simp [batchGitOperation, enqueuedWithinDeadline, he, ht, hs]

/-- Instance of the implemented admission semantics: enqueued at 0,
signaled at 50 — the caller gets the outcome at time 50, beyond the 30-unit
ceiling. -/
theorem batchGitOperation_enqueued_no_deadline_instance :
    batchGitOperation (⟨some 0, some 50, ()⟩ : SubmitEnv Unit) =
      .completed () 50 :=
  batchGitOperation_enqueued_no_deadline _ 0 50 rfl (by decide) rfl

/-- **C2.** The code diverges from its own fan-out comment (which expects
signals to reach requests that timed out): a call that returns the timeout
error did not leave its item in the admission queue. In the timed-out run
below the item was never enqueued, so no flush can ever consume it and its
file appears in no commit on behalf of this submission. -/
theorem submitTimeout_item_dropped :
    batchGitOperation (⟨none, none, ()⟩ : SubmitEnv Unit) = .timeout ∧
    enqueuedWithinDeadline (⟨none, none, ()⟩ : SubmitEnv Unit) = false :=
  ⟨rfl, rfl⟩

/-- Implemented timeout semantics: `batchGitOperation` returns the timeout
error exactly when the `select` abandoned the channel send — a timed-out
caller's item was never admitted, occupies no queue slot, and is consumed
by no flush; conversely a caller whose item was enqueued never receives the
timeout. -/
theorem submitTimeout_iff_not_enqueued (env : SubmitEnv ρ) :
    batchGitOperation env = .timeout ↔ enqueuedWithinDeadline env = false := by
  unfold batchGitOperation
  cases h : enqueuedWithinDeadline env
  · simp
  · simp only [if_pos rfl, Bool.true_eq_false, iff_false]
    cases env.signalAt <;> simp

/-! ## Accumulation loop (`gitBatchProcessor`) -/

/-- One event observed by the accumulation loop: an admission arriving on
the batch channel, a ticker tick, or the channel closing. -/
inductive BatchEvent (α : Type) where
  | enqueue (item : α)
  | tick
  | close
  deriving Repr, DecidableEq

/-- The accumulation loop of `gitBatchProcessor`, run over the sequence of
events it observes, carrying the current buffer: an admitted item is
appended and the buffer flushed as soon as the size ceiling `B` is reached;
a tick flushes whatever is buffered (`processBatch` is a no-op on an empty
buffer); channel close flushes once more and exits. Returns the flushed
batches in flush order. -/
def gitBatchProcessor (B : Nat) : List (BatchEvent α) → List α → List (List α)
  | [], _ => []
  | .enqueue a :: rest, batch =>
    let grown := batch ++ [a]
    if B ≤ grown.length then grown :: gitBatchProcessor B rest []
    else gitBatchProcessor B rest grown
  | .tick :: rest, batch =>
    if batch.isEmpty then gitBatchProcessor B rest batch
    else batch :: gitBatchProcessor B rest []
  | .close :: _, batch =>
    if batch.isEmpty then [] else [batch]

/-- The fan-out loop of `processBatch`: every item of a flushed batch is
signaled with the one outcome `pub` returns for the whole batch. -/
def fanOutBatch (pub : List α → ρ) (flushed : List α) : List (α × ρ) :=
  flushed.map fun x => (x, pub flushed)

/-- All completion-handle signals produced by a run of the loop. -/
def gitBatchSignals (B : Nat) (pub : List α → ρ)
    (events : List (BatchEvent α)) : List (α × ρ) :=
  ((gitBatchProcessor B events []).map (fanOutBatch pub)).flatten

theorem gitBatchProcessor_ticks (B n : Nat) :
    gitBatchProcessor B (List.replicate n (BatchEvent.tick : BatchEvent α)) []
      = [] := by
  induction n with
  | zero => rfl
  | succ n ih => simpa [List.replicate_succ, gitBatchProcessor] using ih

/-- **C4.** With a size ceiling of 3, three items admitted before any timer
tick produce exactly one flush holding all three in admission order, and
every one of the three completion handles is signaled with the identical
whole-batch outcome the publisher returned. -/
theorem three_admissions_one_flush (a b c : α) (pub : List α → ρ) (n : Nat) :
    gitBatchProcessor 3
        ([.enqueue a, .enqueue b, .enqueue c] ++ List.replicate n .tick) [] =
      [[a, b, c]] ∧
    gitBatchSignals 3 pub
        ([.enqueue a, .enqueue b, .enqueue c] ++ List.replicate n .tick) =
      [(a, pub [a, b, c]), (b, pub [a, b, c]), (c, pub [a, b, c])] := by
  have h : gitBatchProcessor 3
      ([.enqueue a, .enqueue b, .enqueue c] ++ List.replicate n .tick) ([] : List α) =
      [[a, b, c]] := by
    simp [gitBatchProcessor, gitBatchProcessor_ticks]
  exact ⟨h, by
    simp [gitBatchSignals, gitBatchProcessor, gitBatchProcessor_ticks,
      fanOutBatch]⟩

theorem gitBatchProcessor_admits_flushes (B : Nat) (hB : 1 ≤ B) :
    ∀ (items batch : List α), batch.length < B →
      (gitBatchProcessor B (items.map .enqueue ++ [.tick]) batch).flatten =
        batch ++ items ∧
      (gitBatchProcessor B (items.map .enqueue ++ [.tick]) batch).length =
        (batch.length + items.length + B - 1) / B := by
  intro items
  induction items with
  | nil =>
    intro batch hb
    by_cases hbe : batch = []
    · subst hbe
      refine ⟨by simp [gitBatchProcessor], ?_⟩
      simp only [gitBatchProcessor, List.isEmpty_nil, if_true, List.nil_append,
        List.map_nil, List.length_nil]
      exact (Nat.div_eq_of_lt (by omega)).symm
    · have hne : batch.isEmpty = false := by
        simpa [List.isEmpty_iff] using hbe
      have hlen : 1 ≤ batch.length := by
        cases batch with
        | nil => exact absurd rfl hbe
        | cons x xs => simp
      refine ⟨by simp [gitBatchProcessor, hne], ?_⟩
      have hdiv : (batch.length + B - 1) / B = 1 :=
        Nat.div_eq_of_lt_le (by omega) (by omega)
      simp [gitBatchProcessor, hne, hdiv]
  | cons a rest ih =>
    intro batch hb
    simp only [List.map_cons, List.cons_append, gitBatchProcessor,
      List.append_eq]
    by_cases hfull : B ≤ (batch ++ [a]).length
    · have hlen : batch.length + 1 = B := by
        simp only [List.length_append, List.length_cons, List.length_nil]
          at hfull
        omega
      rw [if_pos hfull]
      obtain ⟨ih1, ih2⟩ := ih [] (by simpa using hB)
      refine ⟨?_, ?_⟩
      · simp only [List.flatten_cons, ih1, List.nil_append]
        simp [List.append_assoc]
      · simp only [List.length_cons, ih2]
        have harith : batch.length + (rest.length + 1) + B - 1 =
            (([] : List α).length + rest.length + B - 1) + B := by
          simp only [List.length_nil]
          omega
        rw [harith, Nat.add_div_right _ (by omega)]
    · rw [if_neg hfull]
      have hlt : (batch ++ [a]).length < B := by
        simp only [List.length_append, List.length_cons, List.length_nil]
          at hfull ⊢
        omega
      obtain ⟨ih1, ih2⟩ := ih (batch ++ [a]) hlt
      refine ⟨?_, ?_⟩
      · rw [ih1]
        simp [List.append_assoc]
      · rw [ih2]
        congr 1
        simp only [List.length_append, List.length_cons, List.length_nil]
        omega

/-- **C6.** `N` items admitted with no intervening timer tick, with
`N` above the size ceiling `B ≥ 1`, flush in exactly `⌈N / B⌉` batches
(the trailing partial batch going out on the next tick), and the
concatenation of the flushed batches in flush order is exactly the items in
first-admitted order — so each flush is internally ordered by admission. -/
theorem admissions_flush_ceil (items : List α) (B : Nat) (hB : 1 ≤ B)
    (_hN : B < items.length) :
    (gitBatchProcessor B (items.map .enqueue ++ [.tick]) []).flatten = items ∧
    (gitBatchProcessor B (items.map .enqueue ++ [.tick]) []).length =
      (items.length + B - 1) / B := by
  have h := gitBatchProcessor_admits_flushes B hB items [] (by simpa using hB)
  simpa using h

/-- Witness for C6: four items against a ceiling of 3 flush as
`[[0,1,2],[3]]` — two flushes, `⌈4/3⌉ = 2`, in admission order. -/
theorem admissions_flush_ceil_witness :
    (gitBatchProcessor 3 (([0, 1, 2, 3] : List Nat).map .enqueue ++ [.tick])
        []).flatten = [0, 1, 2, 3] ∧
    (gitBatchProcessor 3 (([0, 1, 2, 3] : List Nat).map .enqueue ++ [.tick])
        []).length = (([0, 1, 2, 3] : List Nat).length + 3 - 1) / 3 :=
  admissions_flush_ceil [0, 1, 2, 3] 3 (by decide) (by decide)

/-! ## Repository Publisher (`performBatchedGitOperations`,
`executeBatchedGitCommands`)

External git commands are driven by a `GitWorld` oracle recording what each
command would report; the staging/commit/push actions a flush performs are
returned as an explicit `GitEff` trace. -/

/-- One batched write request as held in the queue (`BatchItem`); the
`ResponseCh` completion handle is modeled by the fan-out (`fanOutBatch`). -/
structure BatchItem where
  TargetFile : Str
  parsedDID : ParsedDID
  deriving Repr, DecidableEq

/-- Oracle for the external git commands of one flush. -/
structure GitWorld where
  /-- `git remote get-url` succeeds (`checkGitRemote`). -/
  remoteExists : Bool
  /-- The configured remote URL (`getRemoteURL`); `none` = command failed. -/
  remoteURL : Option Str
  /-- `checkoutOrCreateBranch` succeeds. -/
  checkoutOk : Bool
  /-- `git add` succeeds. -/
  addOk : Bool
  /-- `git diff --cached --quiet` exits non-zero, i.e. the add staged an
  actual byte-level change. -/
  stagedChanges : Bool
  /-- `git commit` succeeds. -/
  commitOk : Bool
  /-- `git push` succeeds. -/
  pushOk : Bool
  deriving Repr, DecidableEq

/-- The error outcomes of a flush. -/
inductive GitErr where
  | remoteNotFound
  | remoteURLFailed
  | notGitHubURL
  | userMismatch (expected got : Str)
  | repoMismatch (expected got : Str)
  | checkoutFailed
  | addFailed
  | commitFailed
  | pushFailed
  deriving Repr, DecidableEq

/-- Working-copy actions a flush performs. -/
inductive GitEff where
  | stage (files : List Str)
  | commit (files : List Str)
  | push
  deriving Repr, DecidableEq

def sshPrefix : Str := "git@github.com:".toList

def httpsPrefix : Str := "https://github.com/".toList

def dotGit : Str := ".git".toList

/-- The `([^/]+)/([^/]+)(\.git)?$` tail shared by the two remote-URL
patterns of `parseGitHubURL`: exactly one `/`, a non-empty owner and a
non-empty repository part, with a trailing `.git` trimmed off the latter. -/
def parseGitHubRemotePath (rest : Str) : Option (Str × Str) :=
  match splitOnChar '/' rest with
  | [user, repo] =>
    if user.isEmpty || repo.isEmpty then none
    else some (user, trimSuffix dotGit repo)
  | _ => none

/-- `parseGitHubURL`: accepts the SSH form `git@github.com:User/Repo(.git)`
and the HTTPS form `https://github.com/User/Repo(.git)`. -/
def parseGitHubURL (remoteURL : Str) : Option (Str × Str) :=
  if sshPrefix.isPrefixOf remoteURL then
    parseGitHubRemotePath (remoteURL.drop sshPrefix.length)
  else if httpsPrefix.isPrefixOf remoteURL then
    parseGitHubRemotePath (remoteURL.drop httpsPrefix.length)
  else none

/-- The ownership check applied to one item: the GitHub user must equal the
item's lower-cased host minus `.github.io`, and the repository name must
equal the item's project, both case-insensitively. -/
def itemMatchesRemote (ghUser ghRepo : Str) (p : ParsedDID) : Bool :=
  equalFold ghUser (trimSuffix githubSuffix p.HostLower) &&
  equalFold ghRepo p.Project

/-- The validation loop at the top of `performBatchedGitOperations`: for
each item, check the remote exists; then, unless the item's lower-cased
host is already in `seenHosts`, fetch and parse the remote URL, compare the
GitHub user with the host minus `.github.io` and the repository with the
item's project, and record the host as seen. Any failure aborts the whole
loop with that error. -/
def validateBatchItems (w : GitWorld) :
    List BatchItem → List Str → Except GitErr Unit
  | [], _ => .ok ()
  | item :: rest, seenHosts =>
    if w.remoteExists = false then .error .remoteNotFound
    else if seenHosts.contains item.parsedDID.HostLower then
      validateBatchItems w rest seenHosts
    else
      match w.remoteURL with
      | none => .error .remoteURLFailed
      | some url =>
        match parseGitHubURL url with
        | none => .error .notGitHubURL
        | some (ghUser, ghRepo) =>
          let expectedUser := trimSuffix githubSuffix item.parsedDID.HostLower
          if equalFold ghUser expectedUser = false then
            .error (.userMismatch expectedUser ghUser)
          else if equalFold ghRepo item.parsedDID.Project = false then
            .error (.repoMismatch item.parsedDID.Project ghRepo)
          else validateBatchItems w rest (item.parsedDID.HostLower :: seenHosts)

/-- `executeBatchedGitCommands`: checkout the branch, `git add` every
item's file in one command, skip the commit when nothing is staged,
otherwise commit all files and push. Returns whether a commit was created,
plus the trace of working-copy actions. -/
def executeBatchedGitCommands (w : GitWorld) (batch : List BatchItem) :
    Except GitErr Bool × List GitEff :=
  if w.checkoutOk = false then (.error .checkoutFailed, [])
  else
    let filesToAdd := batch.map BatchItem.TargetFile
    if w.addOk = false then (.error .addFailed, [])
    else if w.stagedChanges = false then (.ok false, [.stage filesToAdd])
    else if w.commitOk = false then (.error .commitFailed, [.stage filesToAdd])
    else if w.pushOk = false then
      (.error .pushFailed, [.stage filesToAdd, .commit filesToAdd])
    else (.ok true, [.stage filesToAdd, .commit filesToAdd, .push])

/-- `performBatchedGitOperations`: empty batches are a no-op; otherwise run
the validation loop with an empty `seenHosts` cache, and only if it passes
hand the whole batch to `executeBatchedGitCommands`. -/
def performBatchedGitOperations (w : GitWorld) (batch : List BatchItem) :
    Except GitErr Bool × List GitEff :=
  if batch.isEmpty then (.ok false, [])
  else
    match validateBatchItems w batch [] with
    | .error e => (.error e, [])
    | .ok () => executeBatchedGitCommands w batch

@[simp] theorem except_isOk_error {ε β : Type} (e : ε) :
    (Except.error e : Except ε β).isOk = false := rfl

@[simp] theorem except_isOk_ok {ε β : Type} (x : β) :
    (Except.ok x : Except ε β).isOk = true := rfl

/-! ### C3: ownership validation and the per-host cache -/

/-- A remote whose (owner, repo) is `(alice, repo1)`. -/
def remoteAliceRepo1 : Str := "git@github.com:alice/repo1.git".toList

/-- A fully healthy git world pointing at `(alice, repo1)`. -/
def worldAliceRepo1 : GitWorld :=
  { remoteExists := true, remoteURL := some remoteAliceRepo1,
    checkoutOk := true, addOk := true, stagedChanges := true,
    commitOk := true, pushOk := true }

/-- An item whose (Host, Namespace) matches `(alice, repo1)`. -/
def itemRepo1 : BatchItem :=
  { TargetFile := "fa".toList,
    parsedDID :=
      { Original := "did:web:alice.github.io:repo1".toList,
        Host := "alice.github.io".toList, Project := "repo1".toList,
        PathSegs := [], HostLower := "alice.github.io".toList } }

/-- An item on the same host whose Namespace (`repo2`) mismatches the
remote repository (`repo1`). -/
def itemRepo2 : BatchItem :=
  { TargetFile := "fb".toList,
    parsedDID :=
      { Original := "did:web:alice.github.io:repo2".toList,
        Host := "alice.github.io".toList, Project := "repo2".toList,
        PathSegs := [], HostLower := "alice.github.io".toList } }

/-- **C3 (counterexample).** In a flush `[itemRepo1, itemRepo2]` against the
remote `(alice, repo1)`, the second item's (Host, Namespace) fails the
ownership check, yet — because `itemRepo1` already marked the host as seen —
the flush validates, stages both files, commits and pushes: a mismatching
item does not fail the flush. -/
theorem ownershipMismatch_counterexample :
    parseGitHubURL remoteAliceRepo1 =
      some ("alice".toList, "repo1".toList) ∧
    itemMatchesRemote "alice".toList "repo1".toList itemRepo2.parsedDID =
      false ∧
    itemRepo2 ∈ [itemRepo1, itemRepo2] ∧
    performBatchedGitOperations worldAliceRepo1 [itemRepo1, itemRepo2] =
      (.ok true,
        [.stage ["fa".toList, "fb".toList],
         .commit ["fa".toList, "fb".toList], .push]) :=
  ⟨rfl, rfl, by simp, rfl⟩

theorem validateBatchItems_error_of_first_occurrence_mismatch
    (w : GitWorld) (url u r : Str) (bad : BatchItem)
    (post : List BatchItem)
    (hre : w.remoteExists = true) (hurl : w.remoteURL = some url)
    (hparse : parseGitHubURL url = some (u, r))
    (hbad : itemMatchesRemote u r bad.parsedDID = false) :
    ∀ (pre : List BatchItem) (seenHosts : List Str),
      (∀ p ∈ pre, p.parsedDID.HostLower ≠ bad.parsedDID.HostLower) →
      seenHosts.contains bad.parsedDID.HostLower = false →
      (validateBatchItems w (pre ++ bad :: post) seenHosts).isOk = false := by
  intro pre
  induction pre with
  | nil =>
    intro seenHosts _ hseen
    simp only [List.nil_append, validateBatchItems, hre, Bool.true_eq_false,
      if_false, hseen, Bool.false_eq_true, if_false, hurl, hparse]
    have hbad' := hbad
    unfold itemMatchesRemote at hbad'
    rw [Bool.and_eq_false_iff] at hbad'
    rcases hbad' with h1 | h2
    · simp [h1]
    · by_cases h1 : equalFold u (trimSuffix githubSuffix bad.parsedDID.HostLower) = false
      · simp [h1]
      · simp only [Bool.not_eq_false] at h1
        simp [h1, h2]
  | cons p pre' ih =>
    intro seenHosts hfirst hseen
    have hpfirst : p.parsedDID.HostLower ≠ bad.parsedDID.HostLower :=
      hfirst p (List.mem_cons_self p pre')
    have hfirst' : ∀ q ∈ pre', q.parsedDID.HostLower ≠ bad.parsedDID.HostLower :=
      fun q hq => hfirst q (List.mem_cons_of_mem p hq)
    simp only [List.cons_append, validateBatchItems, hre, Bool.true_eq_false,
      if_false, hurl, hparse]
    by_cases hc : seenHosts.contains p.parsedDID.HostLower
    · simp only [hc, if_true]
      exact ih seenHosts hfirst' hseen
    · simp only [hc, if_false]
      by_cases h1 :
          equalFold u (trimSuffix githubSuffix p.parsedDID.HostLower) = false
      · simp [h1]
      · simp only [Bool.not_eq_false] at h1
        by_cases h2 : equalFold r p.parsedDID.Project = false
        · simp [h1, h2]
        · simp only [Bool.not_eq_false] at h2
          simp only [h1, h2, Bool.true_eq_false, if_false]
          refine ih (p.parsedDID.HostLower :: seenHosts) hfirst' ?_
          simp only [List.contains_cons, Bool.or_eq_false_iff]
          refine ⟨by simpa using fun h => hpfirst h.symm, hseen⟩

/-- **C3 (amended).** Ownership of each item is validated only at the first
occurrence of its lower-cased host within the flush (later items repeating
a seen host are not re-checked): whenever an item that is the first
occurrence of its host fails the (Host, Namespace) ownership check against
the (owner, repo) extracted from the remote URL, the whole flush fails and
no file from the batch is staged. -/
theorem ownershipMismatch_amended
    (w : GitWorld) (url u r : Str) (bad : BatchItem)
    (pre post : List BatchItem)
    (hre : w.remoteExists = true) (hurl : w.remoteURL = some url)
    (hparse : parseGitHubURL url = some (u, r))
    (hbad : itemMatchesRemote u r bad.parsedDID = false)
    (hfirst : ∀ p ∈ pre, p.parsedDID.HostLower ≠ bad.parsedDID.HostLower) :
    (performBatchedGitOperations w (pre ++ bad :: post)).1.isOk = false ∧
    (performBatchedGitOperations w (pre ++ bad :: post)).2 = [] := by
  have hval := validateBatchItems_error_of_first_occurrence_mismatch
    w url u r bad post hre hurl hparse hbad pre [] hfirst rfl
  have hne : (pre ++ bad :: post).isEmpty = false := by
    cases pre <;> simp
  unfold performBatchedGitOperations
  rw [hne]
  simp only [Bool.false_eq_true, if_false]
  cases hv : validateBatchItems w (pre ++ bad :: post) [] with
  | error e => simp
  | ok u' =>
    rw [hv] at hval
    simp [Except.isOk, Except.toBool] at hval

/-- Witness for amended C3: a one-item flush whose item mismatches the
remote `(alice, repo1)` fails outright with nothing staged. -/
theorem ownershipMismatch_amended_witness :
    (performBatchedGitOperations worldAliceRepo1 ([] ++ itemRepo2 :: [])).1.isOk
      = false ∧
    (performBatchedGitOperations worldAliceRepo1 ([] ++ itemRepo2 :: [])).2
      = [] :=
  ownershipMismatch_amended worldAliceRepo1 remoteAliceRepo1
    "alice".toList "repo1".toList itemRepo2 [] [] rfl rfl rfl rfl
    (by simp)

/-! ### C7: idempotent flushes -/

/-- **C7.** A flush whose `git add` stages no byte-level change (the
`git diff --cached --quiet` probe reports nothing staged) skips the commit
and the push entirely, yet the whole-batch outcome is success, and the
fan-out signals that same success to every contributing item. -/
theorem flushNoChanges_skips_commit (w : GitWorld) (batch : List BatchItem)
    (hne : batch.isEmpty = false)
    (hval : validateBatchItems w batch [] = .ok ())
    (hco : w.checkoutOk = true) (hadd : w.addOk = true)
    (hst : w.stagedChanges = false) :
    performBatchedGitOperations w batch =
      (.ok false, [.stage (batch.map BatchItem.TargetFile)]) ∧
    fanOutBatch (fun b => (performBatchedGitOperations w b).1) batch =
      batch.map (fun item => (item, Except.ok false)) := by
  have hperf : performBatchedGitOperations w batch =
      (.ok false, [.stage (batch.map BatchItem.TargetFile)]) := by
    unfold performBatchedGitOperations
    rw [hne]
    simp only [Bool.false_eq_true, if_false, hval]
    unfold executeBatchedGitCommands
    simp [hco, hadd, hst]
  exact ⟨hperf, by simp [fanOutBatch, hperf]⟩

/-- A healthy world pointing at `(alice, repo1)` in which the add stages
no byte-level change. -/
def worldNoChanges : GitWorld :=
  { remoteExists := true, remoteURL := some remoteAliceRepo1,
    checkoutOk := true, addOk := true, stagedChanges := false,
    commitOk := true, pushOk := true }

/-- Witness for C7: resubmitting already-committed content (nothing staged)
performs no commit yet reports success on the one contributing item. -/
theorem flushNoChanges_skips_commit_witness :
    performBatchedGitOperations worldNoChanges [itemRepo1] =
      (.ok false, [.stage ([itemRepo1].map BatchItem.TargetFile)]) ∧
    fanOutBatch
        (fun b => (performBatchedGitOperations worldNoChanges b).1)
        [itemRepo1] =
      [itemRepo1].map (fun item => (item, Except.ok false)) :=
  flushNoChanges_skips_commit worldNoChanges [itemRepo1] rfl rfl rfl rfl rfl

/-! ## Request processing (`processDID`)

`processDID` parses the DID, checks the `.github.io` host suffix, then
fetches, saves, validates (warning only) and finally batches the git
operation. The external steps are driven by a `ProcEnv` oracle and the I/O
the run performs is returned as a trace. The warning-only
`validateDIDDocumentID` re-read neither fails the request nor performs any
of the claim-relevant I/O classes (fetch / file write / git command), so it
does not appear in the trace. -/

/-- The I/O classes a request can perform. -/
inductive ProcEff where
  | fetch
  | save
  | gitOp
  deriving Repr, DecidableEq

/-- Errors a request can fail with. -/
inductive ProcErr where
  | parseFailed
  | hostNotGitHub (host : Str)
  | fetchFailed
  | saveFailed
  | gitFailed
  deriving Repr, DecidableEq

/-- Oracle for the external steps of one request. -/
structure ProcEnv where
  /-- The upstream fetch succeeds with HTTP 200. -/
  fetchOk : Bool
  /-- `saveDIDDocument` succeeds. -/
  saveOk : Bool
  /-- The configured dry-run flag. -/
  dryRun : Bool
  /-- The batched git operation reports success, were it reached. -/
  gitOk : Bool
  deriving Repr, DecidableEq

/-- `processDID`: parse, host check, fetch, save, (warn-only validation),
then the batched git operation unless dry-run. -/
def processDID (env : ProcEnv) (did : Str) :
    Except ProcErr Unit × List ProcEff :=
  match parseDID did with
  | none => (.error .parseFailed, [])
  | some parsed =>
    if hostHasGithubSuffix parsed.Host = false then
      (.error (.hostNotGitHub parsed.Host), [])
    else if env.fetchOk = false then (.error .fetchFailed, [.fetch])
    else if env.saveOk = false then (.error .saveFailed, [.fetch, .save])
    else if env.dryRun then (.ok (), [.fetch, .save])
    else if env.gitOk = false then
      (.error .gitFailed, [.fetch, .save, .gitOp])
    else (.ok (), [.fetch, .save, .gitOp])

/-- **C8 (counterexample).** `parseDID` itself accepts
`did:web:example.com:proj`, whose host `example.com` lacks the `.github.io`
suffix: the parse step does not return the malformed-identifier error for a
bad host (the rejection happens in `processDID`, after parsing). -/
theorem parseDID_accepts_nonGithubHost :
    parseDID "did:web:example.com:proj".toList =
      some { Original := "did:web:example.com:proj".toList,
             Host := "example.com".toList, Project := "proj".toList,
             PathSegs := [], HostLower := "example.com".toList } ∧
    hostHasGithubSuffix "example.com".toList = false := by
  refine ⟨by decide, by decide⟩

/-- **C8 (amended).** An identifier that parses but whose host lacks the
`.github.io` suffix is rejected by the host check of `processDID`
immediately after parsing: the request fails with the host error and
performs zero I/O — no fetch, no file write, no git command. -/
theorem processDID_rejects_nonGithubHost (env : ProcEnv) (did : Str)
    (parsed : ParsedDID) (hp : parseDID did = some parsed)
    (hh : hostHasGithubSuffix parsed.Host = false) :
    processDID env did = (.error (.hostNotGitHub parsed.Host), []) := by
  unfold processDID
  rw [hp]
  simp [hh]

/-- Witness for amended C8 at `did:web:example.com:proj`. -/
theorem processDID_rejects_nonGithubHost_witness :
    processDID { fetchOk := true, saveOk := true, dryRun := false,
                 gitOk := true }
        "did:web:example.com:proj".toList =
      (.error (.hostNotGitHub "example.com".toList), []) :=
  processDID_rejects_nonGithubHost _ _
    { Original := "did:web:example.com:proj".toList,
      Host := "example.com".toList, Project := "proj".toList,
      PathSegs := [], HostLower := "example.com".toList }
    (by decide) (by decide)

/-! ## Saving documents (`saveDIDDocument`)

The payload type `β` and the structured-JSON value type `γ` are abstract;
`parse` stands for `json.Unmarshal` into a generic value and `pretty` for
`json.MarshalIndent` of such a value. (`MarshalIndent` cannot fail on a
value produced by `Unmarshal`, so `pretty` is total; the Go fallback for a
`MarshalIndent` error is therefore unreachable.) -/

/-- File-system actions `saveDIDDocument` performs (paths are component
lists; `filepath.Dir` is `dropLast`). -/
inductive FsEff (β : Type) where
  | mkdirAll (dir : List Str)
  | writeFile (path : List Str) (data : β)
  deriving Repr

/-- Errors of `saveDIDDocument`. -/
inductive SaveErr where
  | mkdirFailed
  | writeFailed
  deriving Repr, DecidableEq

/-- Oracle for the two file-system calls. -/
structure FsEnv where
  mkdirOk : Bool
  writeOk : Bool
  deriving Repr, DecidableEq

/-- The formatting block of `saveDIDDocument`: pretty-print the payload
when it parses as structured data, otherwise keep the raw bytes and warn
(the Go code logs a warning in that branch). Returns (written bytes,
warned). -/
def formatPayload {β γ : Type} (parse : β → Option γ) (pretty : γ → β)
    (data : β) : β × Bool :=
  match parse data with
  | some v => (pretty v, false)
  | none => (data, true)

/-- `saveDIDDocument`: `os.MkdirAll` on the parent directory, then one
`os.WriteFile` of the formatted payload. Returns (result, warned, trace). -/
def saveDIDDocument {β γ : Type} (env : FsEnv) (parse : β → Option γ)
    (pretty : γ → β) (data : β) (targetFile : List Str) :
    Except SaveErr Unit × Bool × List (FsEff β) :=
  if env.mkdirOk = false then
    (.error .mkdirFailed, false, [.mkdirAll targetFile.dropLast])
  else
    let formatted := formatPayload parse pretty data
    if env.writeOk = false then
      (.error .writeFailed, formatted.2,
        [.mkdirAll targetFile.dropLast, .writeFile targetFile formatted.1])
    else
      (.ok (), formatted.2,
        [.mkdirAll targetFile.dropLast, .writeFile targetFile formatted.1])

/-- **C9.** When the directory creation and the write succeed, and the
codec re-parses its own pretty output to the same value (which Go's
`encoding/json` does for values produced by `Unmarshal`),
`saveDIDDocument` creates the parent directories and performs exactly one
write of the formatted payload; the written bytes parse to exactly the
value the input parses to (in particular raw unparseable input is written
unchanged), and the warning is emitted exactly when the payload does not
parse. -/
theorem saveDIDDocument_spec {β γ : Type} (env : FsEnv)
    (parse : β → Option γ) (pretty : γ → β) (data : β)
    (targetFile : List Str)
    (hmk : env.mkdirOk = true) (hwr : env.writeOk = true)
    (hrt : ∀ v, parse data = some v → parse (pretty v) = some v) :
    saveDIDDocument env parse pretty data targetFile =
      (.ok (), (formatPayload parse pretty data).2,
        [.mkdirAll targetFile.dropLast,
         .writeFile targetFile (formatPayload parse pretty data).1]) ∧
    parse (formatPayload parse pretty data).1 = parse data ∧
    ((formatPayload parse pretty data).2 = true ↔ parse data = none) := by
  refine ⟨by simp [saveDIDDocument, hmk, hwr], ?_, ?_⟩
  · cases hpd : parse data with
    | none => simp [formatPayload, hpd]
    | some v => simp [formatPayload, hpd, hrt v hpd]
  · cases hpd : parse data with
    | none => simp [formatPayload, hpd]
    | some v => simp [formatPayload, hpd]

/-- Witness for C9 with the identity codec on `Nat` payloads. -/
theorem saveDIDDocument_spec_witness :
    saveDIDDocument { mkdirOk := true, writeOk := true }
        (fun n : Nat => some n) (fun n : Nat => n) 7
        ["d".toList, "f".toList] =
      (.ok (), (formatPayload (fun n : Nat => some n) (fun n : Nat => n) 7).2,
        [.mkdirAll (["d".toList, "f".toList] : List Str).dropLast,
         .writeFile ["d".toList, "f".toList]
           (formatPayload (fun n : Nat => some n) (fun n : Nat => n) 7).1]) ∧
    (fun n : Nat => some n)
        (formatPayload (fun n : Nat => some n) (fun n : Nat => n) 7).1 =
      (fun n : Nat => some n) 7 ∧
    ((formatPayload (fun n : Nat => some n) (fun n : Nat => n) 7).2 = true ↔
      (fun n : Nat => some n) 7 = none) :=
  saveDIDDocument_spec { mkdirOk := true, writeOk := true }
    (fun n : Nat => some n) (fun n : Nat => n) 7 ["d".toList, "f".toList]
    rfl rfl (fun v h => by simp [← Option.some_inj.mp h])

end HostDidWeb
